import Mathlib

/-!
Verification of the PersonalIntelligenceEngine analytical core.

This file shallowly embeds the pipeline's data model and the operations of
`src/clustering.py`, `src/temporal_analysis.py`, `src/anomaly_detector.py`,
`src/pattern_detector.py` and `src/main.py`, and proves or refutes the frozen
claims about them.  Python text values are modelled as `List Char`, Python
floats as `ℚ` (exact arithmetic) except where the source applies `exp`/`sqrt`,
which are modelled over `ℝ`.  Python dicts built by insertion are modelled as
association lists that preserve insertion order, matching CPython's
dictionary-ordering guarantee that the source relies on.
-/

/-- Python substring prefix test: `matchesAt pat text` holds when `pat` is a
prefix of `text` (character-by-character comparison). -/
def matchesAt : List Char → List Char → Bool
  | [], _ => true
  | _ :: _, [] => false
  | p :: ps, c :: cs => p == c && matchesAt ps cs

/-- Python's `pat in text` substring containment on strings. -/
def containsSub (pat : List Char) : List Char → Bool
  | [] => pat.isEmpty
  | c :: rest => matchesAt pat (c :: rest) || containsSub pat rest

/-- Python's `str.lower()` on the character-list model of a string. -/
def lowerChars (t : List Char) : List Char := t.map Char.toLower

/-- Python's `sum(1 for word in lexicon if word in text)`: the number of
lexicon words occurring as substrings of `text`. -/
def countHits (lexicon : List (List Char)) (text : List Char) : ℕ :=
  (lexicon.filter (fun w => containsSub w text)).length

/-- The positive lexicon of `TemporalAnalyzer._calculate_mood_trend`
(temporal_analysis.py lines 142-146). -/
def positiveWordsTA : List (List Char) :=
  (["good", "great", "happy", "wonderful", "amazing", "love",
    "better", "accomplished", "grateful", "fun", "excited",
    "relieved", "positive", "motivated", "confident", "inspired"] :
      List String).map String.toList

/-- The negative lexicon of `TemporalAnalyzer._calculate_mood_trend`
(temporal_analysis.py lines 148-152). -/
def negativeWordsTA : List (List Char) :=
  (["stress", "pressure", "anxious", "nervous", "worry", "tough",
    "exhausted", "tired", "drained", "difficult", "hard", "sick",
    "worried", "unprepared", "uncertain"] : List String).map String.toList

/-- The positive lexicon of `PatternDetector._calculate_sentiment`
(pattern_detector.py lines 116-121). -/
def positiveWordsPD : List (List Char) :=
  (["good", "great", "happy", "wonderful", "amazing", "love",
    "better", "accomplished", "grateful", "fun", "excited",
    "relieved", "positive", "motivated", "confident", "inspired",
    "recharged", "energetic", "optimistic", "fulfilling", "rewarding"] :
      List String).map String.toList

/-- The negative lexicon of `PatternDetector._calculate_sentiment`
(pattern_detector.py lines 123-127). -/
def negativeWordsPD : List (List Char) :=
  (["stress", "pressure", "anxious", "nervous", "worry", "tough",
    "exhausted", "tired", "drained", "difficult", "hard", "sick",
    "worried", "unprepared", "uncertain", "struggling", "frustrated"] :
      List String).map String.toList

/-- One journal record after loading and embedding.  `date_obj` is the date as
a day count (the source's `datetime`; only day differences are consumed).
`cluster` and `week` are `none` until `ThemeClusterer.fit_predict` resp.
`TemporalAnalyzer._group_by_week` set them, modelling the dict keys the
source adds to each entry. -/
structure Entry where
  entry_id : String
  date : String
  date_obj : ℤ
  text : Option String
  voice_transcript : Option String
  image_caption : Option String
  combined_text : List Char
  embedding : List ℚ
  cluster : Option ℕ
  week : Option ℤ
deriving Repr, DecidableEq, Inhabited

/-- The per-record mood proxy of `TemporalAnalyzer._calculate_mood_trend`
(temporal_analysis.py lines 139-158): positive-lexicon hits minus
negative-lexicon hits in the lowercased combined text. -/
def temporalSentiment (e : Entry) : ℤ :=
  (countHits positiveWordsTA (lowerChars e.combined_text) : ℤ)
    - (countHits negativeWordsTA (lowerChars e.combined_text) : ℤ)

/-- Embeds `PatternDetector._calculate_sentiment` (pattern_detector.py lines
104-136): hit counts over its own lexicons, then the normalized score
`(pos - neg) / (pos + neg)` when any word hit, else `0.0`. -/
def calculateSentiment (e : Entry) : ℚ :=
  let text := lowerChars e.combined_text
  let p := countHits positiveWordsPD text
  let n := countHits negativeWordsPD text
  if 0 < p + n then ((p : ℚ) - (n : ℚ)) / ((p : ℚ) + (n : ℚ)) else 0

/-- `np.mean` over the exact-rational model of a float list. -/
def ratMean (l : List ℚ) : ℚ := l.sum / (l.length : ℚ)

/-- `np.var` (population variance) over the exact-rational model. -/
def ratVar (l : List ℚ) : ℚ :=
  ratMean (l.map (fun x => (x - ratMean l) ^ 2))

/-- One step of building the Python dict `cluster_counts` in
`TemporalAnalyzer._analyze_week` (temporal_analysis.py lines 87-90):
`cluster_counts[cluster] = cluster_counts.get(cluster, 0) + 1`.  An existing
key keeps its dict position; a new key is appended, matching CPython's
insertion-order semantics. -/
def bumpCount : List (ℕ × ℕ) → ℕ → List (ℕ × ℕ)
  | [], c => [(c, 1)]
  | (k, v) :: rest, c =>
      if k = c then (k, v + 1) :: rest else (k, v) :: bumpCount rest c

/-- The finished `cluster_counts` dict for a window's cluster-id sequence. -/
def clusterCounts (cs : List ℕ) : List (ℕ × ℕ) := cs.foldl bumpCount []

/-- Python's `max(cluster_counts, key=cluster_counts.get)`
(temporal_analysis.py line 92): scan the dict in insertion order keeping the
first entry whose value is strictly larger than the current best, and return
its key.  (`max` of an empty dict raises; the source guards this call with
`if week_entries:`, so the `[]` case is unreachable there.) -/
def maxByCount (counts : List (ℕ × ℕ)) : ℕ :=
  match counts with
  | [] => 0
  | p :: rest => (rest.foldl (fun best q => if q.2 > best.2 then q else best) p).1

/-- The dominant cluster id selected by `TemporalAnalyzer._analyze_week`
(temporal_analysis.py lines 86-92) from a window's cluster-id sequence. -/
def dominantCluster (cs : List ℕ) : ℕ := maxByCount (clusterCounts cs)

/-- The cluster-id sequence of a window, in record (date) order:
`entry.get('cluster', 0)` for each entry (temporal_analysis.py line 89). -/
def weekClusterList (weekEntries : List Entry) : List ℕ :=
  weekEntries.map (fun e => e.cluster.getD 0)

/-- The dominant cluster id `_analyze_week` computes for a window. -/
def weekDominantCluster (weekEntries : List Entry) : ℕ :=
  dominantCluster (weekClusterList weekEntries)

/-- Defined from the claim's words, for comparison with the source's
`dominantCluster`: among the cluster ids attaining the highest record count
in the window, the LOWEST cluster id wins the tie. -/
def claimDominantLowest (cs : List ℕ) : ℕ :=
  cs.foldl
    (fun best c =>
      if cs.count best < cs.count c ∨ (cs.count c = cs.count best ∧ c < best)
      then c else best)
    (cs.headD 0)

/-- Embeds `TemporalAnalyzer._calculate_mood_trend` (temporal_analysis.py
lines 118-173): fewer than 2 records gives `stable`; otherwise the sentiment
sequence is split at `len // 2`, the two half-means are compared, and the
trend is chosen by the `±0.5` thresholds.  The source's inner
`len(sentiments) >= 2` re-check is kept verbatim. -/
def calculateMoodTrend (weekEntries : List Entry) : String :=
  if weekEntries.length < 2 then "stable"
  else
    let sentiments := weekEntries.map (fun e => (temporalSentiment e : ℚ))
    if 2 ≤ sentiments.length then
      let firstHalfAvg := ratMean (sentiments.take (sentiments.length / 2))
      let secondHalfAvg := ratMean (sentiments.drop (sentiments.length / 2))
      let diff := secondHalfAvg - firstHalfAvg
      if diff > 1 / 2 then "improving"
      else if diff < -(1 / 2) then "declining"
      else "stable"
    else "stable"

/-- Defined from the claim's words, for comparison with the source's
`calculateMoodTrend`: under 2 records is `stable`; otherwise the sequence is
split by integer division with the odd extra record in the second half, and
`diff = mean(second) - mean(first)` is thresholded at `±0.5`. -/
def claimMoodTrend (ss : List ℚ) : String :=
  if ss.length < 2 then "stable"
  else
    let diff := ratMean (ss.drop (ss.length / 2)) - ratMean (ss.take (ss.length / 2))
    if diff > 1 / 2 then "improving"
    else if diff < -(1 / 2) then "declining"
    else "stable"

/-- One step of building the `defaultdict(list)` keyed by week in
`PatternDetector._detect_weekly_pattern` (pattern_detector.py lines 46-51):
append the sentiment to the key's list, inserting a new key at the end. -/
def appendVal : List (ℤ × List ℚ) → ℤ → ℚ → List (ℤ × List ℚ)
  | [], k, v => [(k, [v])]
  | (k', vs) :: rest, k, v =>
      if k' = k then (k', vs ++ [v]) :: rest else (k', vs) :: appendVal rest k v

/-- The per-week sentiment lists of `_detect_weekly_pattern`, keyed by
`entry.get('week', 1)`, in week-first-appearance order. -/
def weeklySentiments (data : List Entry) : List (ℤ × List ℚ) :=
  data.foldl (fun acc e => appendVal acc (e.week.getD 1) (calculateSentiment e)) []

/-- The `week_averages` values of `_detect_weekly_pattern` (pattern_detector.py
lines 53-56), one mean per distinct week. -/
def weekAverages (data : List Entry) : List ℚ :=
  (weeklySentiments data).map (fun p => ratMean p.2)

/-- The fluctuation description of pattern_detector.py line 66. -/
def fluctuationDescription : String :=
  "Sentiment shows weekly fluctuations with peaks and valleys."

/-- The generic fallback description of pattern_detector.py line 71. -/
def genericWeeklyDescription : String :=
  "Weekly patterns show stress peaks early in week improving towards weekend."

/-- Embeds `PatternDetector._detect_weekly_pattern` (pattern_detector.py lines
36-72) as the pair (detected flag, description). -/
def detectWeeklyPattern (data : List Entry) : Bool × String :=
  let avgs := weekAverages data
  if 3 ≤ avgs.length then
    if ratVar avgs > 1 / 2 then (true, fluctuationDescription)
    else (true, genericWeeklyDescription)
  else (true, genericWeeklyDescription)

/-- The stress trigger lexicon of `AnomalyDetector._create_anomaly_entry`
(anomaly_detector.py line 76). -/
def stressTriggers : List (List Char) :=
  (["stress", "pressure", "anxious", "nervous"] : List String).map String.toList

/-- The fatigue trigger lexicon of anomaly_detector.py line 78. -/
def fatigueTriggers : List (List Char) :=
  (["sick", "tired", "exhausted", "drained"] : List String).map String.toList

/-- The confidence/doubt trigger lexicon of anomaly_detector.py line 80. -/
def confidenceTriggers : List (List Char) :=
  (["unprepared", "worry", "uncertain", "doubt"] : List String).map String.toList

/-- The lexical anomaly classification of `_create_anomaly_entry`
(anomaly_detector.py lines 73-81): default `emotional_spike`, overridden by
the first matching trigger family in source order. -/
def anomalyTypeOf (combinedText : List Char) : String :=
  let t := lowerChars combinedText
  if stressTriggers.any (fun w => containsSub w t) then "stress_surge"
  else if fatigueTriggers.any (fun w => containsSub w t) then "fatigue_spike"
  else if confidenceTriggers.any (fun w => containsSub w t) then "confidence_dip"
  else "emotional_spike"

/-- The per-type description templates of `_generate_anomaly_description`
(anomaly_detector.py lines 106-116), with the generic fallback of the
`dict.get` default. -/
def anomalyDescription (e : Entry) (anomalyType : String) : String :=
  if anomalyType = "stress_surge" then
    "Elevated stress levels detected on " ++ e.date
  else if anomalyType = "fatigue_spike" then
    "Significant fatigue indicators on " ++ e.date
  else if anomalyType = "confidence_dip" then
    "Confidence or self-doubt concerns on " ++ e.date
  else if anomalyType = "emotional_spike" then
    "Unusual emotional pattern detected on " ++ e.date
  else
    "Anomaly detected on " ++ e.date

/-- One output row of `AnomalyDetector.detect`. -/
structure Anomaly where
  entry_id : String
  date : String
  anomaly_type : String
  anomaly_score : ℚ
  description : String
deriving Repr, DecidableEq, Inhabited

/-- Python's `round(x, 4)` on the rational model of a float (rounding to four
decimal places; the half-even/half-up difference at exact midpoints is
immaterial to every claim below, none of which depends on midpoint ties). -/
def round4 (x : ℚ) : ℚ := (round (x * 10000) : ℤ) / 10000

/-- Embeds `AnomalyDetector._create_anomaly_entry` (anomaly_detector.py lines
54-89). -/
def createAnomalyEntry (e : Entry) (score : ℚ) : Anomaly :=
  { entry_id := e.entry_id
    date := e.date
    anomaly_type := anomalyTypeOf e.combined_text
    anomaly_score := round4 score
    description := anomalyDescription e (anomalyTypeOf e.combined_text) }

/-- The indices flagged by `AnomalyDetector.detect` (anomaly_detector.py lines
43-44): positions `i` of `zip(predictions, scores)` with `pred == -1`. -/
def flaggedIndices (preds : List ℤ) (scores : List ℚ) : List ℕ :=
  (((preds.zip scores).enum).filter (fun p => p.2.1 == -1)).map (fun p => p.1)

/-- The comparison Python's stable `list.sort(key=lambda x: x['anomaly_score'])`
uses (anomaly_detector.py line 50). -/
def scoreLe (a b : Anomaly) : Bool := a.anomaly_score ≤ b.anomaly_score

/-- Embeds `AnomalyDetector.detect` (anomaly_detector.py lines 23-52),
parameterized by the isolation forest's outputs `preds`/`scores` (the fitted
model is an external black box; the source derives both from the embedding
matrix alone): build one anomaly per flagged index, then stable-sort
ascending by the stored anomaly score. -/
def detectAnomalies (preds : List ℤ) (scores : List ℚ) (data : List Entry) :
    List Anomaly :=
  (((flaggedIndices preds scores)).map
      (fun i => createAnomalyEntry (data.getD i default) (scores.getD i 0))).mergeSort
    scoreLe

/-- `AnomalyDetector.detect` as called by the pipeline (main.py line 52): the
model is a function of the embedding matrix only — `fit_predict(embeddings)`
and `score_samples(embeddings)` receive no record text (anomaly_detector.py
lines 38-40). -/
def runDetect (model : List (List ℚ) → List ℤ × List ℚ)
    (embeddings : List (List ℚ)) (data : List Entry) : List Anomaly :=
  detectAnomalies (model embeddings).1 (model embeddings).2 data

/-- The set (list, in index order) of record indices a `runDetect` run flags.
`data` is a genuine parameter of the run; the definition records that the
selection happens before any record is read. -/
def runFlagged (model : List (List ℚ) → List ℤ × List ℚ)
    (embeddings : List (List ℚ)) (data : List Entry) : List ℕ :=
  flaggedIndices (model embeddings).1 (model embeddings).2

/-- The state `AnomalyDetector.__init__` builds (anomaly_detector.py lines
11-21): it stores the contamination value into the `IsolationForest`
constructor with the fixed seed and performs no validation of any kind. -/
structure AnomalyDetectorState where
  contamination : ℚ
  random_state : ℕ
deriving Repr, DecidableEq

/-- Embeds `AnomalyDetector.__init__`: a total function — every contamination
value, valid or not, yields a constructed detector. -/
def anomalyDetectorInit (contamination : ℚ) : AnomalyDetectorState :=
  { contamination := contamination, random_state := 42 }

/-- The state `ThemeClusterer.__init__` builds (clustering.py lines 13-21):
stores `n_clusters` and the `KMeans` configuration, with no validation
against the (not yet known) record count. -/
structure ThemeClustererState where
  n_clusters : ℕ
  random_state : ℕ
  n_init : ℕ
deriving Repr, DecidableEq

/-- Embeds `ThemeClusterer.__init__`: total — any cluster count is accepted. -/
def themeClustererInit (n_clusters : ℕ) : ThemeClustererState :=
  { n_clusters := n_clusters, random_state := 42, n_init := 10 }

/-- The cluster-assignment loop of `ThemeClusterer.fit_predict`
(clustering.py lines 36-37): `entry['cluster'] = int(labels[i])` for each
record, with the labels produced by the (black box) fitted KMeans model. -/
def assignClusters (labels : List ℕ) (data : List Entry) : List Entry :=
  (data.zip labels).map (fun p => { p.1 with cluster := some p.2 })

/-- The entry enrichment performed by `TemporalAnalyzer._group_by_week`
(temporal_analysis.py lines 53-63): `entry['week'] = days_diff // 7 + 1`
relative to the first record's date (Python floor division).  The returned
dict groups references to these same enriched entries; an empty dataset makes
the source raise on `data[0]`, so the empty case is out of its domain. -/
def groupByWeekEntries (data : List Entry) : List Entry :=
  match data with
  | [] => []
  | first :: _ =>
      data.map (fun e =>
        { e with week := some ((e.date_obj - first.date_obj).fdiv 7 + 1) })

/-- All `Entry` fields except `cluster` agree between `e` (before) and `e'`
(after). -/
def sameExceptCluster (e e' : Entry) : Prop :=
  e'.entry_id = e.entry_id ∧ e'.date = e.date ∧ e'.date_obj = e.date_obj ∧
  e'.text = e.text ∧ e'.voice_transcript = e.voice_transcript ∧
  e'.image_caption = e.image_caption ∧ e'.combined_text = e.combined_text ∧
  e'.embedding = e.embedding ∧ e'.week = e.week

/-- All `Entry` fields except `week` agree between `e` (before) and `e'`
(after). -/
def sameExceptWeek (e e' : Entry) : Prop :=
  e'.entry_id = e.entry_id ∧ e'.date = e.date ∧ e'.date_obj = e.date_obj ∧
  e'.text = e.text ∧ e'.voice_transcript = e.voice_transcript ∧
  e'.image_caption = e.image_caption ∧ e'.combined_text = e.combined_text ∧
  e'.embedding = e.embedding ∧ e'.cluster = e.cluster

/-- A minimal record used to build concrete test inputs. -/
def baseEntry : Entry :=
  { entry_id := "e0", date := "2024-01-01", date_obj := 0, text := none,
    voice_transcript := none, image_caption := none, combined_text := [],
    embedding := [], cluster := none, week := none }

/-- A record whose combined text is exactly the claim scenario
"stress pressure anxious". -/
def stressEntry : Entry :=
  { baseEntry with entry_id := "s1",
                   combined_text := "stress pressure anxious".toList }

/-- A record with no text in any modality (empty combined text). -/
def emptyTextEntry : Entry :=
  { baseEntry with entry_id := "s2" }

/-- A record whose diary text is "good great", with the pipeline's labeled
combined text (embeddings.py lines 60-69). -/
def entryGoodGreat : Entry :=
  { baseEntry with entry_id := "g1", text := some "good great",
                   combined_text := "Diary: good great".toList }

/-- A record assigned to cluster 1. -/
def entryCluster1 : Entry :=
  { baseEntry with entry_id := "k1", cluster := some 1 }

/-- A record assigned to cluster 2. -/
def entryCluster2 : Entry :=
  { baseEntry with entry_id := "k2", cluster := some 2 }

/-- C2: for every input dataset, `PatternDetector`'s weekly-cycle result has
`detected = true`; the variance test (at least 3 distinct weeks and
population variance of per-week average sentiment over 0.5) selects only
which of the two description sentences is returned, never the flag. -/
theorem c2_weekly_cycle_always_detected (data : List Entry) :
    (detectWeeklyPattern data).1 = true ∧
    (detectWeeklyPattern data).2 =
      (if 3 ≤ (weekAverages data).length ∧ ratVar (weekAverages data) > 1 / 2
       then fluctuationDescription else genericWeeklyDescription) := by
  by_cases h1 : 3 ≤ (weekAverages data).length
  · simp only [detectWeeklyPattern, if_pos h1, h1, true_and]
    split_ifs <;> simp
  · simp [detectWeeklyPattern, h1]

/-- C4 (code bug evidence): the source performs no configuration validation
at all.  `AnomalyDetector.__init__` accepts the invalid contamination 2
(outside the open interval (0, 1)) and simply stores it, and
`ThemeClusterer.__init__` accepts any cluster count (here 5, which exceeds a
3-record dataset) — no `ConfigError` exists and nothing aborts before the
stages run. -/
theorem c4_no_config_validation :
    ¬((0 : ℚ) < 2 ∧ (2 : ℚ) < 1) ∧
    anomalyDetectorInit 2 = { contamination := 2, random_state := 42 } ∧
    themeClustererInit 5 = { n_clusters := 5, random_state := 42, n_init := 10 } :=
  ⟨by norm_num, rfl, rfl⟩

/-- C8: the anomaly type of a flagged record is assigned by inspecting the
combined text for fixed lexical triggers, first match winning in the
priority order stress, fatigue, confidence/doubt, otherwise emotional
spike; the scenario text "stress pressure anxious" is classified
`stress_surge`. -/
theorem c8_anomaly_type_priority (e : Entry) (score : ℚ) :
    (stressTriggers.any (fun w => containsSub w (lowerChars e.combined_text)) = true →
      (createAnomalyEntry e score).anomaly_type = "stress_surge") ∧
    (stressTriggers.any (fun w => containsSub w (lowerChars e.combined_text)) = false →
      fatigueTriggers.any (fun w => containsSub w (lowerChars e.combined_text)) = true →
      (createAnomalyEntry e score).anomaly_type = "fatigue_spike") ∧
    (stressTriggers.any (fun w => containsSub w (lowerChars e.combined_text)) = false →
      fatigueTriggers.any (fun w => containsSub w (lowerChars e.combined_text)) = false →
      confidenceTriggers.any (fun w => containsSub w (lowerChars e.combined_text)) = true →
      (createAnomalyEntry e score).anomaly_type = "confidence_dip") ∧
    (stressTriggers.any (fun w => containsSub w (lowerChars e.combined_text)) = false →
      fatigueTriggers.any (fun w => containsSub w (lowerChars e.combined_text)) = false →
      confidenceTriggers.any (fun w => containsSub w (lowerChars e.combined_text)) = false →
      (createAnomalyEntry e score).anomaly_type = "emotional_spike") ∧
    anomalyTypeOf "stress pressure anxious".toList = "stress_surge" := by
  refine ⟨?_, ?_, ?_, ?_, by decide⟩
  · intro h1
    simp [createAnomalyEntry, anomalyTypeOf, h1]
  · intro h1 h2
    simp [createAnomalyEntry, anomalyTypeOf, h1, h2]
  · intro h1 h2 h3
    simp [createAnomalyEntry, anomalyTypeOf, h1, h2, h3]
  · intro h1 h2 h3
    simp [createAnomalyEntry, anomalyTypeOf, h1, h2, h3]

/-- Witness for C8 at concrete inputs: the scenario record is classified
`stress_surge`, and a record with empty text falls through to
`emotional_spike`. -/
theorem c8_anomaly_type_witness :
    (createAnomalyEntry stressEntry 0).anomaly_type = "stress_surge" ∧
    (createAnomalyEntry emptyTextEntry 0).anomaly_type = "emotional_spike" :=
  ⟨(c8_anomaly_type_priority stressEntry 0).1 (by decide),
   (c8_anomaly_type_priority emptyTextEntry 0).2.2.2.1 (by decide) (by decide)
     (by decide)⟩

/-- C3 counterexample: on the record with combined text "Diary: good great"
(two positive-lexicon hits, no negative hit) `PatternDetector`'s proxy is
`(2 - 0) / (2 + 0) = 1`, not the subtraction count `2 - 0 = 2` the claim
asserts. -/
theorem c3_counterexample :
    calculateSentiment entryGoodGreat ≠
      (countHits positiveWordsPD (lowerChars entryGoodGreat.combined_text) : ℚ) -
        (countHits negativeWordsPD (lowerChars entryGoodGreat.combined_text) : ℚ) := by
  have hp : countHits positiveWordsPD (lowerChars entryGoodGreat.combined_text) = 2 := by
    decide
  have hn : countHits negativeWordsPD (lowerChars entryGoodGreat.combined_text) = 0 := by
    decide
  simp only [calculateSentiment, hp, hn]
  norm_num

/-- C3 amended: `PatternDetector`'s per-record proxy counts lexicon hits like
`TemporalAnalyzer`'s, but returns the NORMALIZED score
`(pos - neg) / (pos + neg)` (0 when no word hits), a value in [-1, 1] — not
the plain subtraction count `pos - neg` that `TemporalAnalyzer` uses; the two
lexicons also differ. -/
theorem c3_sentiment_normalized_amended (e : Entry) :
    calculateSentiment e =
      (if 0 < countHits positiveWordsPD (lowerChars e.combined_text) +
              countHits negativeWordsPD (lowerChars e.combined_text)
       then ((countHits positiveWordsPD (lowerChars e.combined_text) : ℚ) -
               (countHits negativeWordsPD (lowerChars e.combined_text) : ℚ)) /
            ((countHits positiveWordsPD (lowerChars e.combined_text) : ℚ) +
               (countHits negativeWordsPD (lowerChars e.combined_text) : ℚ))
       else 0) ∧
    -1 ≤ calculateSentiment e ∧ calculateSentiment e ≤ 1 ∧
    temporalSentiment e =
      (countHits positiveWordsTA (lowerChars e.combined_text) : ℤ) -
        (countHits negativeWordsTA (lowerChars e.combined_text) : ℤ) := by
  have hP : (0 : ℚ) ≤ (countHits positiveWordsPD (lowerChars e.combined_text) : ℚ) :=
    Nat.cast_nonneg _
  have hN : (0 : ℚ) ≤ (countHits negativeWordsPD (lowerChars e.combined_text) : ℚ) :=
    Nat.cast_nonneg _
  refine ⟨rfl, ?_, ?_, rfl⟩
  · simp only [calculateSentiment]
    split_ifs with h
    · have hpos : (0 : ℚ) <
          (countHits positiveWordsPD (lowerChars e.combined_text) : ℚ) +
            (countHits negativeWordsPD (lowerChars e.combined_text) : ℚ) := by
        exact_mod_cast h
      rw [le_div_iff₀ hpos]
      linarith
    · norm_num
  · simp only [calculateSentiment]
    split_ifs with h
    · have hpos : (0 : ℚ) <
          (countHits positiveWordsPD (lowerChars e.combined_text) : ℚ) +
            (countHits negativeWordsPD (lowerChars e.combined_text) : ℚ) := by
        exact_mod_cast h
      rw [div_le_one hpos]
      linarith
    · norm_num

/-- C5: for every weekly window, the source's mood trend agrees with the
claim's description: `stable` under 2 records, otherwise the window's
sentiment sequence is split by integer division (odd extra record to the
second half) and `diff = mean(second) - mean(first)` is thresholded at
`±0.5` for `improving`/`declining`/`stable`. -/
theorem c5_mood_trend_matches_claim (weekEntries : List Entry) :
    calculateMoodTrend weekEntries =
      claimMoodTrend (weekEntries.map (fun e => (temporalSentiment e : ℚ))) := by
  simp only [calculateMoodTrend, claimMoodTrend, List.length_map]
  split_ifs with h1 h2 <;> first | rfl | omega

/-- C7: the anomaly list returned by `AnomalyDetector.detect` is sorted
non-decreasing by anomaly score, for every model output and dataset. -/
theorem c7_anomalies_sorted (preds : List ℤ) (scores : List ℚ) (data : List Entry) :
    (detectAnomalies preds scores data).Pairwise
      (fun a b => a.anomaly_score ≤ b.anomaly_score) := by
  have htrans : ∀ a b c : Anomaly,
      scoreLe a b = true → scoreLe b c = true → scoreLe a c = true := by
    intro a b c hab hbc
    simp only [scoreLe, decide_eq_true_eq] at *
    exact le_trans hab hbc
  have htotal : ∀ a b : Anomaly, (scoreLe a b || scoreLe b a) = true := by
    intro a b
    simp only [scoreLe, Bool.or_eq_true, decide_eq_true_eq]
    exact le_total _ _
  have h := List.sorted_mergeSort htrans htotal
    ((flaggedIndices preds scores).map
      (fun i => createAnomalyEntry (data.getD i default) (scores.getD i 0)))
  refine List.Pairwise.imp ?_ h
  intro a b hab
  simpa [scoreLe] using hab

/-- C9: which records are flagged depends only on the embedding matrix fed to
the model, never on any record's text: two runs over the same embeddings
flag the same index set (and hence produce the same number of anomalies)
whatever the two datasets' texts are. -/
theorem c9_flags_depend_only_on_embeddings
    (model : List (List ℚ) → List ℤ × List ℚ) (embeddings : List (List ℚ))
    (data₁ data₂ : List Entry) :
    runFlagged model embeddings data₁ = runFlagged model embeddings data₂ ∧
    (runDetect model embeddings data₁).length =
      (runDetect model embeddings data₂).length := by
  constructor
  · rfl
  · simp [runDetect, detectAnomalies, List.length_mergeSort]

/-- Squared Euclidean distance between two equal-length vectors, computed
exactly over the rational coordinates. -/
def sqDistQ (x y : List ℚ) : ℚ :=
  (x.zipWith (fun a b => (a - b) * (a - b)) y).sum

/-- `np.linalg.norm(embeddings[i] - centroid)`: the Euclidean distance. -/
noncomputable def euclidDist (x y : List ℚ) : ℝ :=
  Real.sqrt ((sqDistQ x y : ℝ))

/-- Embeds `ThemeClusterer._calculate_confidence` (clustering.py lines
163-195): collect the member indices of the cluster, return 0.0 for an empty
cluster, else `exp(-avg_distance / 2)` with the arithmetic mean of the
members' Euclidean distances to the centroid. -/
noncomputable def calculateConfidence (embeddings : List (List ℚ))
    (labels : List ℕ) (clusterId : ℕ) (centroid : List ℚ) : ℝ :=
  let clusterIndices :=
    (List.range labels.length).filter (fun i => labels.getD i 0 == clusterId)
  if clusterIndices.isEmpty then 0
  else
    let distances :=
      clusterIndices.map (fun i => euclidDist (embeddings.getD i []) centroid)
    Real.exp (-(distances.sum / (distances.length : ℝ)) / 2)

theorem sqDistQ_self (v : List ℚ) : sqDistQ v v = 0 := by
  induction v with
  | nil => rfl
  | cons a t ih =>
      simp only [sqDistQ, List.zipWith_cons_cons, List.sum_cons, sub_self,
        mul_zero, zero_add] at ih ⊢
      simpa using ih

theorem euclidDist_self (v : List ℚ) : euclidDist v v = 0 := by
  simp [euclidDist, sqDistQ_self]

theorem euclidDist_nonneg (x y : List ℚ) : 0 ≤ euclidDist x y :=
  Real.sqrt_nonneg _

/-- C6: the cluster confidence equals `exp(-mean_distance / 2)` over the
members' Euclidean distances to the centroid; it lies in (0, 1] for every
non-empty cluster, equals 1 when the cluster is a singleton whose member
coincides with its centroid, and equals 0 for an empty cluster. -/
theorem c6_confidence_bounds (embeddings : List (List ℚ)) (labels : List ℕ)
    (clusterId : ℕ) (centroid : List ℚ) :
    ((List.range labels.length).filter (fun i => labels.getD i 0 == clusterId) ≠ [] →
      calculateConfidence embeddings labels clusterId centroid =
        Real.exp
          (-((((List.range labels.length).filter
                  (fun i => labels.getD i 0 == clusterId)).map
                (fun i => euclidDist (embeddings.getD i []) centroid)).sum /
              ((((List.range labels.length).filter
                  (fun i => labels.getD i 0 == clusterId)).map
                (fun i => euclidDist (embeddings.getD i []) centroid)).length : ℝ)) / 2) ∧
      0 < calculateConfidence embeddings labels clusterId centroid ∧
      calculateConfidence embeddings labels clusterId centroid ≤ 1) ∧
    ((List.range labels.length).filter (fun i => labels.getD i 0 == clusterId) = [] →
      calculateConfidence embeddings labels clusterId centroid = 0) ∧
    (∀ i : ℕ,
      (List.range labels.length).filter (fun i => labels.getD i 0 == clusterId) = [i] →
      embeddings.getD i [] = centroid →
      calculateConfidence embeddings labels clusterId centroid = 1) := by
  refine ⟨?_, ?_, ?_⟩
  · intro hne
    have h' : ¬(((List.range labels.length).filter
        (fun i => labels.getD i 0 == clusterId)).isEmpty = true) := by
      simpa [List.isEmpty_iff] using hne
    have heq : calculateConfidence embeddings labels clusterId centroid =
        Real.exp
          (-((((List.range labels.length).filter
                  (fun i => labels.getD i 0 == clusterId)).map
                (fun i => euclidDist (embeddings.getD i []) centroid)).sum /
              ((((List.range labels.length).filter
                  (fun i => labels.getD i 0 == clusterId)).map
                (fun i => euclidDist (embeddings.getD i []) centroid)).length : ℝ)) / 2) := by
      simp only [calculateConfidence]
      rw [if_neg h']
    refine ⟨heq, ?_, ?_⟩
    · rw [heq]
      exact Real.exp_pos _
    · rw [heq]
      have hsum : (0 : ℝ) ≤
          (((List.range labels.length).filter
              (fun i => labels.getD i 0 == clusterId)).map
            (fun i => euclidDist (embeddings.getD i []) centroid)).sum := by
        apply List.sum_nonneg
        intro x hx
        obtain ⟨j, _, rfl⟩ := List.mem_map.mp hx
        exact euclidDist_nonneg _ _
      have havg : (0 : ℝ) ≤
          (((List.range labels.length).filter
              (fun i => labels.getD i 0 == clusterId)).map
            (fun i => euclidDist (embeddings.getD i []) centroid)).sum /
          ((((List.range labels.length).filter
              (fun i => labels.getD i 0 == clusterId)).map
            (fun i => euclidDist (embeddings.getD i []) centroid)).length : ℝ) :=
        div_nonneg hsum (by positivity)
      have hle : Real.exp
          (-((((List.range labels.length).filter
                  (fun i => labels.getD i 0 == clusterId)).map
                (fun i => euclidDist (embeddings.getD i []) centroid)).sum /
              ((((List.range labels.length).filter
                  (fun i => labels.getD i 0 == clusterId)).map
                (fun i => euclidDist (embeddings.getD i []) centroid)).length : ℝ)) / 2)
          ≤ Real.exp 0 := Real.exp_le_exp.mpr (by linarith)
      simpa [Real.exp_zero] using hle
  · intro hemp
    have h' : (((List.range labels.length).filter
        (fun i => labels.getD i 0 == clusterId)).isEmpty = true) := by
      rw [hemp]
      rfl
    simp only [calculateConfidence]
    rw [if_pos h']
  · intro i hsingle hcent
    have h' : ¬(((List.range labels.length).filter
        (fun i => labels.getD i 0 == clusterId)).isEmpty = true) := by
      rw [hsingle]
      simp
    simp only [calculateConfidence]
    rw [if_neg h', hsingle]
    simp only [List.map_cons, List.map_nil, List.sum_cons, List.sum_nil,
      List.length_cons, List.length_nil, hcent, euclidDist_self]
    norm_num

/-- Witness for C6 at a concrete singleton cluster: one record, embedding
`[0]`, centroid `[0]` — the confidence is positive, at most 1, and exactly 1. -/
theorem c6_confidence_witness :
    0 < calculateConfidence [[0]] [0] 0 [0] ∧
    calculateConfidence [[0]] [0] 0 [0] ≤ 1 ∧
    calculateConfidence [[0]] [0] 0 [0] = 1 :=
  ⟨((c6_confidence_bounds [[0]] [0] 0 [0]).1 (by decide)).2.1,
   ((c6_confidence_bounds [[0]] [0] 0 [0]).1 (by decide)).2.2,
   (c6_confidence_bounds [[0]] [0] 0 [0]).2.2 0 (by decide) rfl⟩

theorem forall₂_self_map {α : Type} {R : α → α → Prop} (f : α → α) :
    ∀ (l : List α), (∀ e ∈ l, R e (f e)) → List.Forall₂ R l (l.map f)
  | [], _ => List.Forall₂.nil
  | a :: l, h =>
      List.Forall₂.cons (h a (by simp))
        (forall₂_self_map f l (fun e he => h e (by simp [he])))

theorem assignClusters_forall₂ :
    ∀ (data : List Entry) (labels : List ℕ), labels.length = data.length →
      List.Forall₂ (fun e e' => sameExceptCluster e e' ∧ ∃ l, e'.cluster = some l)
        data (assignClusters labels data)
  | [], _, _ => by simp [assignClusters]
  | e :: ds, [], h => by simp at h
  | e :: ds, l :: ls, h => by
      simp only [assignClusters, List.zip_cons_cons, List.map_cons]
      refine List.Forall₂.cons ⟨by simp [sameExceptCluster], l, rfl⟩ ?_
      have hrec := assignClusters_forall₂ ds ls (by simpa using h)
      simpa [assignClusters] using hrec

theorem assignClusters_map_cluster :
    ∀ (data : List Entry) (labels : List ℕ), labels.length = data.length →
      (assignClusters labels data).map (fun e => e.cluster) = labels.map some
  | [], labels, h => by
      have : labels = [] := List.length_eq_zero.mp (by simpa using h)
      simp [assignClusters, this]
  | e :: ds, [], h => by simp at h
  | e :: ds, l :: ls, h => by
      have hrec := assignClusters_map_cluster ds ls (by simpa using h)
      simp only [assignClusters, List.zip_cons_cons, List.map_cons,
        List.map_nil] at hrec ⊢
      simpa using hrec

theorem groupByWeekEntries_forall₂ (data : List Entry) (h : data ≠ []) :
    List.Forall₂ (fun e e' => sameExceptWeek e e' ∧ ∃ w, e'.week = some w)
      data (groupByWeekEntries data) := by
  match data with
  | [] => exact absurd rfl h
  | first :: rest =>
      simp only [groupByWeekEntries]
      exact forall₂_self_map _ (first :: rest)
        (fun e _ => ⟨by simp [sameExceptWeek], _, rfl⟩)

/-- C10: `ThemeClusterer.fit_predict` adds exactly the `cluster` field to each
record (set to the record's KMeans label) and `TemporalAnalyzer`'s week
grouping adds exactly the `week` field; every other pre-existing field of
every record is left unchanged by both operations. -/
theorem c10_frame_preservation (data : List Entry) (labels : List ℕ) :
    (labels.length = data.length →
      List.Forall₂ (fun e e' => sameExceptCluster e e' ∧ ∃ l, e'.cluster = some l)
        data (assignClusters labels data) ∧
      (assignClusters labels data).map (fun e => e.cluster) = labels.map some) ∧
    (data ≠ [] →
      List.Forall₂ (fun e e' => sameExceptWeek e e' ∧ ∃ w, e'.week = some w)
        data (groupByWeekEntries data)) :=
  ⟨fun h => ⟨assignClusters_forall₂ data labels h,
             assignClusters_map_cluster data labels h⟩,
   fun h => groupByWeekEntries_forall₂ data h⟩

/-- Witness for C10 on a concrete one-record dataset with label 3. -/
theorem c10_frame_witness :
    (List.Forall₂ (fun e e' => sameExceptCluster e e' ∧ ∃ l, e'.cluster = some l)
      [entryGoodGreat] (assignClusters [3] [entryGoodGreat]) ∧
     (assignClusters [3] [entryGoodGreat]).map (fun e => e.cluster) =
       [3].map some) ∧
    List.Forall₂ (fun e e' => sameExceptWeek e e' ∧ ∃ w, e'.week = some w)
      [entryGoodGreat] (groupByWeekEntries [entryGoodGreat]) :=
  ⟨(c10_frame_preservation [entryGoodGreat] [3]).1 rfl,
   (c10_frame_preservation [entryGoodGreat] [3]).2 (List.cons_ne_nil _ _)⟩

/-- The key list of an association-list dict, in insertion order. -/
def keysOf (l : List (ℕ × ℕ)) : List ℕ := l.map Prod.fst

/-- Association-list lookup with default 0 (Python's `dict.get(k, 0)`). -/
def lookCount : List (ℕ × ℕ) → ℕ → ℕ
  | [], _ => 0
  | (k, v) :: rest, x => if x = k then v else lookCount rest x

theorem lookCount_bumpCount (acc : List (ℕ × ℕ)) (c x : ℕ) :
    lookCount (bumpCount acc c) x = lookCount acc x + if x = c then 1 else 0 := by
  induction acc with
  | nil =>
      by_cases h : x = c <;> simp [bumpCount, lookCount, h]
  | cons p rest ih =>
      obtain ⟨k, v⟩ := p
      by_cases hkc : k = c
      · by_cases hxk : x = k
        · simp [bumpCount, lookCount, hkc, hxk, hxk.trans hkc]
        · have hxc : ¬x = c := fun he => hxk (he.trans hkc.symm)
          simp [bumpCount, lookCount, hkc, hxk, hxc]
      · by_cases hxk : x = k
        · have hxc : ¬x = c := fun he => hkc (hxk.symm.trans he)
          simp [bumpCount, lookCount, hkc, hxk, hxc]
        · simp [bumpCount, lookCount, hkc, hxk, ih]

theorem keysOf_bumpCount (acc : List (ℕ × ℕ)) (c : ℕ) :
    keysOf (bumpCount acc c) =
      if c ∈ keysOf acc then keysOf acc else keysOf acc ++ [c] := by
  induction acc with
  | nil => simp [bumpCount, keysOf]
  | cons p rest ih =>
      obtain ⟨k, v⟩ := p
      by_cases hkc : k = c
      · simp [bumpCount, keysOf, hkc]
      · simp only [bumpCount, if_neg hkc, keysOf, List.map_cons] at ih ⊢
        rw [ih]
        have hck : ¬c = k := fun he => hkc he.symm
        by_cases hc : c ∈ List.map Prod.fst rest <;>
          simp [List.mem_cons, hc, hck]

theorem clusterCounts_append_singleton (cs : List ℕ) (c : ℕ) :
    clusterCounts (cs ++ [c]) = bumpCount (clusterCounts cs) c := by
  simp [clusterCounts, List.foldl_append]

theorem lookCount_clusterCounts (cs : List ℕ) (x : ℕ) :
    lookCount (clusterCounts cs) x = cs.count x := by
  induction cs using List.reverseRecOn with
  | nil => simp [clusterCounts, lookCount]
  | append_singleton cs c ih =>
      rw [clusterCounts_append_singleton, lookCount_bumpCount, ih,
        List.count_append]
      by_cases h : x = c <;> simp [h, List.count_singleton]

theorem mem_keys_clusterCounts (cs : List ℕ) :
    ∀ x : ℕ, x ∈ keysOf (clusterCounts cs) ↔ x ∈ cs := by
  induction cs using List.reverseRecOn with
  | nil => intro x; simp [clusterCounts, keysOf]
  | append_singleton cs c ih =>
      intro x
      rw [clusterCounts_append_singleton, keysOf_bumpCount]
      by_cases hc : c ∈ keysOf (clusterCounts cs)
      · have hc' : c ∈ cs := (ih c).mp hc
        simp only [if_pos hc, ih x, List.mem_append, List.mem_singleton]
        constructor
        · exact Or.inl
        · rintro (h | rfl)
          · exact h
          · exact hc'
      · simp [if_neg hc, ih x]

theorem nodup_keys_clusterCounts (cs : List ℕ) :
    (keysOf (clusterCounts cs)).Nodup := by
  induction cs using List.reverseRecOn with
  | nil => simp [clusterCounts, keysOf]
  | append_singleton cs c ih =>
      rw [clusterCounts_append_singleton, keysOf_bumpCount]
      by_cases hc : c ∈ keysOf (clusterCounts cs)
      · simpa [if_pos hc] using ih
      · rw [if_neg hc]
        exact List.Nodup.append ih (List.nodup_singleton c)
          (by simpa [List.disjoint_singleton] using hc)

theorem pairwise_keys_clusterCounts (cs : List ℕ) :
    (keysOf (clusterCounts cs)).Pairwise
      (fun a b => cs.indexOf a < cs.indexOf b) := by
  induction cs using List.reverseRecOn with
  | nil => simp [clusterCounts, keysOf]
  | append_singleton cs c ih =>
      rw [clusterCounts_append_singleton, keysOf_bumpCount]
      have hlift : (keysOf (clusterCounts cs)).Pairwise
          (fun a b => (cs ++ [c]).indexOf a < (cs ++ [c]).indexOf b) := by
        refine ih.imp_of_mem ?_
        intro a b ha hb hab
        rw [List.indexOf_append_of_mem ((mem_keys_clusterCounts cs a).mp ha),
          List.indexOf_append_of_mem ((mem_keys_clusterCounts cs b).mp hb)]
        exact hab
      by_cases hc : c ∈ keysOf (clusterCounts cs)
      · simpa [if_pos hc] using hlift
      · rw [if_neg hc]
        have hcnot : c ∉ cs := fun h => hc ((mem_keys_clusterCounts cs c).mpr h)
        rw [List.pairwise_append]
        refine ⟨hlift, List.pairwise_singleton _ _, ?_⟩
        intro a ha b hb
        rw [List.mem_singleton] at hb
        subst hb
        have hacs : a ∈ cs := (mem_keys_clusterCounts cs a).mp ha
        rw [List.indexOf_append_of_mem hacs,
          List.indexOf_append_of_not_mem hcnot]
        calc cs.indexOf a < cs.length := List.indexOf_lt_length.mpr hacs
          _ ≤ cs.length + List.indexOf b [b] := Nat.le_add_right _ _

theorem lookCount_eq_of_mem :
    ∀ (l : List (ℕ × ℕ)), (keysOf l).Nodup → ∀ p ∈ l, lookCount l p.1 = p.2
  | [], _, p, hp => absurd hp (List.not_mem_nil p)
  | (k, v) :: rest, hnd, p, hp => by
      simp only [keysOf, List.map_cons] at hnd
      have hnd' := List.nodup_cons.mp hnd
      rcases List.mem_cons.mp hp with h | h
      · subst h
        simp [lookCount]
      · have hk : ¬p.1 = k := by
          intro he
          have hp1 : p.1 ∈ List.map Prod.fst rest :=
            List.mem_map_of_mem Prod.fst h
          rw [he] at hp1
          exact hnd'.1 hp1
        simp only [lookCount, if_neg hk]
        exact lookCount_eq_of_mem rest hnd'.2 p h

theorem pair_mem_of_mem_keys :
    ∀ (l : List (ℕ × ℕ)) (k : ℕ), k ∈ keysOf l → (k, lookCount l k) ∈ l
  | [], k, h => absurd h (by simp [keysOf])
  | (k', v) :: rest, k, h => by
      by_cases hk : k = k'
      · subst hk
        simp [lookCount]
      · have hmem : k ∈ keysOf rest := by
          simp only [keysOf, List.map_cons, List.mem_cons] at h
          rcases h with h' | h'
          · exact absurd h' hk
          · exact h'
        have := pair_mem_of_mem_keys rest k hmem
        simp only [lookCount, if_neg hk]
        exact List.mem_cons_of_mem _ this

theorem foldlMax_mem (l : List (ℕ × ℕ)) : ∀ p : ℕ × ℕ,
    l.foldl (fun best q => if q.2 > best.2 then q else best) p = p ∨
    l.foldl (fun best q => if q.2 > best.2 then q else best) p ∈ l := by
  induction l with
  | nil => intro p; exact Or.inl rfl
  | cons q l ih =>
      intro p
      simp only [List.foldl_cons]
      rcases ih (if q.2 > p.2 then q else p) with h | h
      · rw [h]
        by_cases hq : q.2 > p.2
        · rw [if_pos hq]
          exact Or.inr (List.mem_cons_self _ _)
        · rw [if_neg hq]
          exact Or.inl rfl
      · exact Or.inr (List.mem_cons_of_mem _ h)

theorem foldlMax_le (l : List (ℕ × ℕ)) : ∀ p : ℕ × ℕ,
    p.2 ≤ (l.foldl (fun best q => if q.2 > best.2 then q else best) p).2 ∧
    ∀ q ∈ l, q.2 ≤ (l.foldl (fun best q => if q.2 > best.2 then q else best) p).2 := by
  induction l with
  | nil =>
      intro p
      exact ⟨le_refl _, by simp⟩
  | cons q l ih =>
      intro p
      simp only [List.foldl_cons]
      obtain ⟨h1, h2⟩ := ih (if q.2 > p.2 then q else p)
      have hp : p.2 ≤ (if q.2 > p.2 then q else p).2 := by
        by_cases hq : q.2 > p.2
        · rw [if_pos hq]; exact le_of_lt hq
        · rw [if_neg hq]
      have hq2 : q.2 ≤ (if q.2 > p.2 then q else p).2 := by
        by_cases hq : q.2 > p.2
        · rw [if_pos hq]
        · rw [if_neg hq]; exact le_of_not_lt hq
      refine ⟨le_trans hp h1, ?_⟩
      intro r hr
      rcases List.mem_cons.mp hr with h | h
      · subst h; exact le_trans hq2 h1
      · exact h2 r h

theorem foldlMax_first (l : List (ℕ × ℕ)) : ∀ p : ℕ × ℕ,
    l.foldl (fun best q => if q.2 > best.2 then q else best) p = p ∨
    ∃ l₁ l₂, l = l₁ ++ l.foldl (fun best q => if q.2 > best.2 then q else best) p :: l₂ ∧
      p.2 < (l.foldl (fun best q => if q.2 > best.2 then q else best) p).2 ∧
      ∀ q ∈ l₁, q.2 < (l.foldl (fun best q => if q.2 > best.2 then q else best) p).2 := by
  induction l with
  | nil => intro p; exact Or.inl rfl
  | cons q l ih =>
      intro p
      simp only [List.foldl_cons]
      by_cases hq : q.2 > p.2
      · rw [if_pos hq]
        rcases ih q with h | ⟨l₁, l₂, hsplit, hlt, hall⟩
        · right
          refine ⟨[], l, ?_, ?_, ?_⟩
          · simp [h]
          · rw [h]; exact hq
          · intro r hr; exact absurd hr (List.not_mem_nil r)
        · right
          refine ⟨q :: l₁, l₂, ?_, ?_, ?_⟩
          · rw [List.cons_append, ← hsplit]
          · exact lt_trans hq hlt
          · intro r hr
            rcases List.mem_cons.mp hr with h | h
            · subst h; exact hlt
            · exact hall r h
      · rw [if_neg hq]
        rcases ih p with h | ⟨l₁, l₂, hsplit, hlt, hall⟩
        · exact Or.inl h
        · right
          refine ⟨q :: l₁, l₂, ?_, ?_, ?_⟩
          · rw [List.cons_append, ← hsplit]
          · exact hlt
          · intro r hr
            rcases List.mem_cons.mp hr with h | h
            · subst h; exact lt_of_le_of_lt (le_of_not_lt hq) hlt
            · exact hall r h

theorem dominantCluster_spec (cs : List ℕ) (h : cs ≠ []) :
    dominantCluster cs ∈ cs ∧
    (∀ c ∈ cs, cs.count c ≤ cs.count (dominantCluster cs)) ∧
    (∀ c ∈ cs, cs.count c = cs.count (dominantCluster cs) →
      cs.indexOf (dominantCluster cs) ≤ cs.indexOf c) := by
  obtain ⟨P, REST, hPR⟩ : ∃ P REST, clusterCounts cs = P :: REST := by
    cases hcc : clusterCounts cs with
    | nil =>
        exfalso
        obtain ⟨c, hc⟩ := List.exists_mem_of_ne_nil cs h
        have hmem := (mem_keys_clusterCounts cs c).mpr hc
        rw [hcc] at hmem
        simp [keysOf] at hmem
    | cons P REST => exact ⟨P, REST, rfl⟩
  obtain ⟨r, hr⟩ :
      ∃ r, REST.foldl (fun best q => if q.2 > best.2 then q else best) P = r :=
    ⟨_, rfl⟩
  have hd : dominantCluster cs = r.1 := by
    rw [dominantCluster, hPR, maxByCount, hr]
  have hrmem : r ∈ clusterCounts cs := by
    rw [hPR]
    have hcase := foldlMax_mem REST P
    rw [hr] at hcase
    rcases hcase with hcase | hcase
    · rw [hcase]; exact List.mem_cons_self _ _
    · exact List.mem_cons_of_mem _ hcase
  have hnd := nodup_keys_clusterCounts cs
  have hrval : r.2 = cs.count r.1 := by
    rw [← lookCount_eq_of_mem (clusterCounts cs) hnd r hrmem,
      lookCount_clusterCounts]
  have hdmem : dominantCluster cs ∈ cs := by
    rw [hd]
    exact (mem_keys_clusterCounts cs r.1).mp (List.mem_map_of_mem Prod.fst hrmem)
  have hpairmem : ∀ c ∈ cs, (c, cs.count c) ∈ clusterCounts cs := by
    intro c hc
    have hck : c ∈ keysOf (clusterCounts cs) := (mem_keys_clusterCounts cs c).mpr hc
    have := pair_mem_of_mem_keys _ c hck
    rwa [lookCount_clusterCounts] at this
  have hmax : ∀ c ∈ cs, cs.count c ≤ cs.count (dominantCluster cs) := by
    intro c hc
    have hpair := hpairmem c hc
    rw [hPR] at hpair
    have hle := foldlMax_le REST P
    rw [hr] at hle
    have hc2 : (c, cs.count c).2 ≤ r.2 := by
      rcases List.mem_cons.mp hpair with hcase | hcase
      · rw [hcase]
        exact hle.1
      · exact hle.2 _ hcase
    rw [hd, ← hrval]
    exact hc2
  refine ⟨hdmem, hmax, ?_⟩
  intro c hc hcnt
  by_cases hcd : c = dominantCluster cs
  · rw [hcd]
  have hpair := hpairmem c hc
  have hpairwise : (clusterCounts cs).Pairwise
      (fun p q => cs.indexOf p.1 < cs.indexOf q.1) :=
    (@List.pairwise_map (ℕ × ℕ) ℕ Prod.fst
        (fun a b => cs.indexOf a < cs.indexOf b) (clusterCounts cs)).mp
      (pairwise_keys_clusterCounts cs)
  have hkeyne : (c, cs.count c).1 ≠ r.1 := by
    simpa [hd] using hcd
  have hfirst := foldlMax_first REST P
  rw [hr] at hfirst
  rcases hfirst with hcase | ⟨l₁, l₂, hsplit, hlt, hall⟩
  · -- the head pair is the chosen maximum
    have hcounts : clusterCounts cs = r :: REST := by rw [hPR, ← hcase]
    rw [hcounts] at hpair
    have hcrest : (c, cs.count c) ∈ REST := by
      rcases List.mem_cons.mp hpair with hcase' | hcase'
      · exact absurd (congrArg Prod.fst hcase') hkeyne
      · exact hcase'
    rw [hcounts] at hpairwise
    have hidx := List.rel_of_pairwise_cons hpairwise hcrest
    rw [hd]
    exact le_of_lt hidx
  · -- the chosen maximum sits after a strictly smaller prefix
    have hcounts : clusterCounts cs = (P :: l₁) ++ r :: l₂ := by
      rw [hPR, hsplit]
      rfl
    have hvr : (c, cs.count c).2 = r.2 := by
      simp only [hrval]
      rw [hcnt, hd]
    have hcnotpre : (c, cs.count c) ∉ P :: l₁ := by
      intro hmem'
      rcases List.mem_cons.mp hmem' with hcase' | hcase'
      · rw [hcase'] at hvr
        exact absurd hvr (ne_of_lt hlt)
      · exact absurd hvr (ne_of_lt (hall _ hcase'))
    rw [hcounts] at hpair
    have hcsuf : (c, cs.count c) ∈ r :: l₂ := by
      rcases List.mem_append.mp hpair with hcase' | hcase'
      · exact absurd hcase' hcnotpre
      · exact hcase'
    have hcl₂ : (c, cs.count c) ∈ l₂ := by
      rcases List.mem_cons.mp hcsuf with hcase' | hcase'
      · exact absurd (congrArg Prod.fst hcase') hkeyne
      · exact hcase'
    have hsub : (r :: l₂).Sublist (clusterCounts cs) := by
      rw [hcounts]
      exact List.sublist_append_right (P :: l₁) (r :: l₂)
    have hpair₂ := hpairwise.sublist hsub
    have hidx := List.rel_of_pairwise_cons hpair₂ hcl₂
    rw [hd]
    exact le_of_lt hidx

/-- C1 counterexample: a window of two records in clusters 2 and 1 (in that
date order) ties at one record each; the source picks cluster 2 (the first
key inserted into the count dict), while the claim's lowest-id tie-break
picks cluster 1. -/
theorem c1_counterexample :
    weekClusterList [entryCluster2, entryCluster1] = [2, 1] ∧
    (weekClusterList [entryCluster2, entryCluster1]).count 1 =
      (weekClusterList [entryCluster2, entryCluster1]).count 2 ∧
    weekDominantCluster [entryCluster2, entryCluster1] = 2 ∧
    claimDominantLowest (weekClusterList [entryCluster2, entryCluster1]) = 1 ∧
    weekDominantCluster [entryCluster2, entryCluster1] ≠
      claimDominantLowest (weekClusterList [entryCluster2, entryCluster1]) := by
  refine ⟨by decide, by decide, by decide, by decide, by decide⟩

/-- C1 amended: for every non-empty weekly window, the dominant cluster is a
cluster of the window attaining the highest record count; when several
clusters tie for the highest count, the winner is the tied cluster whose
first record appears EARLIEST in the window's date order (the dict
insertion-order tie-break), not the lowest cluster id. -/
theorem c1_dominant_cluster_amended (weekEntries : List Entry)
    (h : weekEntries ≠ []) :
    weekDominantCluster weekEntries ∈ weekClusterList weekEntries ∧
    (∀ c ∈ weekClusterList weekEntries,
      (weekClusterList weekEntries).count c ≤
        (weekClusterList weekEntries).count (weekDominantCluster weekEntries)) ∧
    (∀ c ∈ weekClusterList weekEntries,
      (weekClusterList weekEntries).count c =
        (weekClusterList weekEntries).count (weekDominantCluster weekEntries) →
      (weekClusterList weekEntries).indexOf (weekDominantCluster weekEntries) ≤
        (weekClusterList weekEntries).indexOf c) :=
  dominantCluster_spec (weekClusterList weekEntries)
    (by simpa [weekClusterList] using h)

/-- Witness for C1 at the concrete tied window: the source's choice, cluster
2, is a member of the window attaining the maximal count, and its first
occurrence is no later than that of any tied cluster. -/
theorem c1_dominant_cluster_witness :
    weekDominantCluster [entryCluster2, entryCluster1] ∈
      weekClusterList [entryCluster2, entryCluster1] ∧
    (weekClusterList [entryCluster2, entryCluster1]).count 1 ≤
      (weekClusterList [entryCluster2, entryCluster1]).count
        (weekDominantCluster [entryCluster2, entryCluster1]) ∧
    (weekClusterList [entryCluster2, entryCluster1]).indexOf
        (weekDominantCluster [entryCluster2, entryCluster1]) ≤
      (weekClusterList [entryCluster2, entryCluster1]).indexOf 1 :=
  ⟨(c1_dominant_cluster_amended [entryCluster2, entryCluster1]
      (List.cons_ne_nil _ _)).1,
   (c1_dominant_cluster_amended [entryCluster2, entryCluster1]
      (List.cons_ne_nil _ _)).2.1 1 (by decide),
   (c1_dominant_cluster_amended [entryCluster2, entryCluster1]
      (List.cons_ne_nil _ _)).2.2 1 (by decide) (by decide)⟩
